import Mathlib

/-!
Verification of the outline parsing, connector derivation and progressive-reveal
engine of the obsidian-plus-motion-canvas repository.

The definitions below are shallow embeddings of the TypeScript source:
* `tokenizeLine`, `analyzeLine`, `linesWithRanges`, `connectorAt`,
  `splitIndent`, `thresholdsOf`, `typedWithin`, `connectorPlacement`,
  `sceneLineCenters` embed `src/scenes/tag.tsx` (and the identical render
  logic in the shared scene file);
* `parseSegments`, `part2ParseLine`, `docLineCenters`, `docConnectorAt`,
  `segShowPill` embed the shared checklist module (`parseSegments`,
  `parseLine`, `parseDocument`, `buildDocumentNodes`).

Strings are modelled as `List Char`; JavaScript numbers appearing in offset
arithmetic are modelled as `Int`, pixel geometry as `ℚ`.
-/

/-- JavaScript `/\s/` test used by `isWhitespace` in the source. -/
def isWhitespace (c : Char) : Bool :=
  c = ' ' || c = '\t' || c = '\n' || c = '\r' || c.val = 11 || c.val = 12 ||
  c.val = 0xa0 || c.val = 0x1680 || (0x2000 ≤ c.val && c.val ≤ 0x200a) ||
  c.val = 0x2028 || c.val = 0x2029 || c.val = 0x202f || c.val = 0x205f ||
  c.val = 0x3000 || c.val = 0xfeff

/-- The six checkbox states of the checklist module. -/
inductive CheckboxState where
  | unchecked
  | done
  | inProgress
  | cancelled
  | error
  | question
deriving DecidableEq, Repr

/-- The `checkboxCharToState` record of the checklist module; record lookup of
an absent key is `undefined`, modelled by `none`. -/
def checkboxCharToState (c : Char) : Option CheckboxState :=
  if c = ' ' then some .unchecked
  else if c = 'x' then some .done
  else if c = 'X' then some .done
  else if c = '/' then some .inProgress
  else if c = '-' then some .cancelled
  else if c = '!' then some .error
  else if c = '?' then some .question
  else none

/-- The character class `[ xX/\-!\?]` of the checkbox regular expressions. -/
def checkboxStateChars : List Char := [' ', 'x', 'X', '/', '-', '!', '?']

/-- The static `tagPalette` record of the checklist module. -/
def tagPalette (name : List Char) : Option String :=
  if name = "application".toList then some "#34d399"
  else if name = "todo".toList then some "#8f6bff"
  else if name = "backlog".toList then some "#4ba3ff"
  else if name = "tag".toList then some "#38bdf8"
  else if name = "idea".toList then some "#facc15"
  else none

/-- `defaultTagColor` of the checklist module. -/
def defaultTagColor : String := "#94a3b8"

/-- `checkboxFrameSize` of the checklist module. -/
def checkboxFrameSize : Int := 36

/-- The token union built by `tokenizeLine` in `tag.tsx`.  The `length` field
of the source is always set to `raw.length`, so it is kept derived. -/
inductive Tok where
  | checkbox (raw : List Char) (state : CheckboxState)
  | space (raw : List Char) (width : Int)
  | bullet (raw : List Char)
  | tag (raw : List Char) (tagName : List Char)
  | text (raw : List Char)
deriving DecidableEq, Repr

/-- The `raw` field common to all token kinds. -/
def Tok.raw : Tok → List Char
  | .checkbox r _ => r
  | .space r _ => r
  | .bullet r => r
  | .tag r _ => r
  | .text r => r

/-- The `length` field: the source always stores `raw.length`. -/
def Tok.length (t : Tok) : Nat := t.raw.length

def Tok.isCheckbox : Tok → Bool
  | .checkbox _ _ => true
  | _ => false

def Tok.isBullet : Tok → Bool
  | .bullet _ => true
  | _ => false

def Tok.isTag : Tok → Bool
  | .tag _ _ => true
  | _ => false

def Tok.isSpace : Tok → Bool
  | .space _ _ => true
  | _ => false

/-- The base-per-character width of a space run, chosen from the preceding
token's kind (`tokenizeLine`, space branch). -/
def spaceBase (prev : Option Tok) : Int :=
  match prev with
  | some (.checkbox _ _) => checkboxFrameSize - 10
  | some (.bullet _) => 20
  | _ => 16

/-- The tokenizer's checkbox pattern `/^-\s\[([ xX\/\-!\?])\]/`: a dash, one
whitespace character, a bracketed state character drawn from the class.
Returns the matched text, the derived state and the rest of the line. -/
def matchCheckbox : List Char → Option (List Char × CheckboxState × List Char)
  | '-' :: w :: '[' :: c :: ']' :: rest =>
      if isWhitespace w ∧ c ∈ checkboxStateChars then
        some (['-', w, '[', c, ']'], (checkboxCharToState c).getD .unchecked, rest)
      else
        none
  | _ => none

theorem matchCheckbox_some {l raw st rest}
    (h : matchCheckbox l = some (raw, st, rest)) :
    l = raw ++ rest ∧ raw.length = 5 := by
  rw [matchCheckbox.eq_def] at h
  split at h
  · split at h
    · cases h
      exact ⟨rfl, rfl⟩
    · cases h
  · cases h

/-- The scanning loop of `tokenizeLine` in `tag.tsx`.  `prev` is the token
most recently pushed (used for space widths).  Every loop iteration consumes
at least one character, so running the loop with `fuel = l.length` (as
`tokenizeLine` does) never exhausts the fuel. -/
def tokenizeFrom (fuel : Nat) (prev : Option Tok) (l : List Char) : List Tok :=
  match fuel with
  | 0 => []
  | fuel + 1 =>
    match matchCheckbox l with
    | some (raw, st, rest) =>
        let t := Tok.checkbox raw st
        t :: tokenizeFrom fuel (some t) rest
    | none =>
      match l with
      | [] => []
      | c :: cs =>
        if c = ' ' then
          let raw := c :: cs.takeWhile (· = ' ')
          let t := Tok.space raw (spaceBase prev * (raw.length : Int))
          t :: tokenizeFrom fuel (some t) (cs.dropWhile (· = ' '))
        else if c = '-' ∧ cs.head? = some ' ' then
          let t := Tok.bullet ['-']
          t :: tokenizeFrom fuel (some t) cs
        else if c = '#' then
          let body := cs.takeWhile (fun d => ¬ isWhitespace d)
          let t := Tok.tag ('#' :: body) body
          t :: tokenizeFrom fuel (some t) (cs.dropWhile (fun d => ¬ isWhitespace d))
        else
          let run := cs.takeWhile (fun d => ¬ (d = '#' ∨ isWhitespace d))
          let t := Tok.text (c :: run)
          t :: tokenizeFrom fuel (some t) (cs.dropWhile (fun d => ¬ (d = '#' ∨ isWhitespace d)))

/-- `tokenizeLine` of `tag.tsx`. -/
def tokenizeLine (l : List Char) : List Tok := tokenizeFrom l.length none l

example :
    tokenizeLine ("- [x] a".toList) =
      [Tok.checkbox ("- [x]".toList) .done,
       Tok.space [' '] 26,
       Tok.text ['a']] := by decide

example :
    tokenizeLine ("- #idea A".toList) =
      [Tok.bullet ['-'],
       Tok.space [' '] 20,
       Tok.tag ("#idea".toList) ("idea".toList),
       Tok.space [' '] 16,
       Tok.text ['A']] := by decide

theorem tokenizeFrom_raw_flatten :
    ∀ (fuel : Nat) (prev : Option Tok) (l : List Char), l.length ≤ fuel →
      ((tokenizeFrom fuel prev l).map Tok.raw).flatten = l := by
  intro fuel
  induction fuel with
  | zero =>
      intro prev l hl
      have hnil : l = [] := List.length_eq_zero.mp (Nat.le_zero.mp hl)
      subst hnil
      rfl
  | succ fuel ih =>
      intro prev l hl
      simp only [tokenizeFrom]
      cases hm : matchCheckbox l with
      | some res =>
          obtain ⟨raw, st, rest⟩ := res
          obtain ⟨hsplit, hlen⟩ := matchCheckbox_some hm
          have hrest : rest.length ≤ fuel := by
            have := congrArg List.length hsplit
            simp [hlen] at this
            omega
          simp only [List.map_cons, List.flatten_cons, Tok.raw]
          rw [ih _ rest hrest]
          exact hsplit.symm
      | none =>
          cases l with
          | nil => rfl
          | cons c cs =>
              have hcs : cs.length ≤ fuel := by
                simp only [List.length_cons] at hl
                omega
              have hdrop : ∀ p : Char → Bool, (cs.dropWhile p).length ≤ fuel :=
                fun p => le_trans (List.dropWhile_sublist p).length_le hcs
              by_cases hsp : c = ' '
              · simp only [if_pos hsp, List.map_cons, List.flatten_cons, Tok.raw]
                rw [ih _ _ (hdrop _), hsp]
                simp [List.takeWhile_append_dropWhile]
              · simp only [if_neg hsp]
                by_cases hb : c = '-' ∧ cs.head? = some ' '
                · simp only [if_pos hb, List.map_cons, List.flatten_cons, Tok.raw]
                  rw [ih _ _ hcs, hb.1]
                  rfl
                · simp only [if_neg hb]
                  by_cases ht : c = '#'
                  · simp only [if_pos ht, List.map_cons, List.flatten_cons, Tok.raw]
                    rw [ih _ _ (hdrop _), ht]
                    simp [List.takeWhile_append_dropWhile]
                  · simp only [if_neg ht, List.map_cons, List.flatten_cons, Tok.raw]
                    rw [ih _ _ (hdrop _)]
                    simp [List.takeWhile_append_dropWhile]

/-- C5: concatenating the `raw` fields of the tokenizer's output, in order,
reconstructs the input line exactly — the tokens partition the line with no
gaps or overlaps. -/
theorem tokenizeLine_raw_flatten (l : List Char) :
    ((tokenizeLine l).map Tok.raw).flatten = l :=
  tokenizeFrom_raw_flatten l.length none l le_rfl

/-- The marker kinds of a line analysis. -/
inductive Marker where
  | checkbox
  | bullet
deriving DecidableEq, Repr

/-- `LineAnalysis` of `tag.tsx`. -/
structure LineAnalysis where
  indentSpaces : Nat
  indentLevel : Nat
  marker : Option Marker
  connectorTagName : Option (List Char)
deriving DecidableEq, Repr

/-- Number of leading literal spaces (`rawLine.match(/^ */)`). -/
def indentSpacesOf (l : List Char) : Nat := (l.takeWhile (· = ' ')).length

/-- `rawLine.slice(indentSpaces)`. -/
def remainderAfterIndent (l : List Char) : List Char := l.drop (indentSpacesOf l)

/-- The analyzer's checkbox pattern `/^- \[([ xX\/\-!\?])\]/` (literal space,
unlike the tokenizer's `\s`).  Returns the derived state and the rest. -/
def matchCheckboxStrict : List Char → Option (CheckboxState × List Char)
  | '-' :: ' ' :: '[' :: c :: ']' :: rest =>
      if c ∈ checkboxStateChars then
        some ((checkboxCharToState c).getD .unchecked, rest)
      else
        none
  | _ => none

/-- The content left after stripping indentation, marker and any further
leading whitespace — the value `analyzeLine` checks for a leading `#`. -/
def lineContentAfterMarker (l : List Char) : List Char :=
  let remainder0 := remainderAfterIndent l
  let remainder1 :=
    match matchCheckboxStrict remainder0 with
    | some (_, rest) => rest
    | none =>
      if remainder0.head? = some '-' then remainder0.drop 1 else remainder0
  remainder1.dropWhile isWhitespace

/-- `analyzeLine` of `tag.tsx`. -/
def analyzeLine (l : List Char) : LineAnalysis :=
  let indentSpaces := indentSpacesOf l
  let remainder0 := remainderAfterIndent l
  let marker : Option Marker :=
    match matchCheckboxStrict remainder0 with
    | some _ => some .checkbox
    | none => if remainder0.head? = some '-' then some .bullet else none
  let remainder2 := lineContentAfterMarker l
  let connectorTagName : Option (List Char) :=
    match remainder2 with
    | '#' :: rest =>
        let body := rest.takeWhile (fun d => ¬ isWhitespace d)
        if body = [] then none else some body
    | _ => none
  { indentSpaces := indentSpaces
    indentLevel := indentSpaces / 4
    marker := marker
    connectorTagName := connectorTagName }

example : (analyzeLine ("   - x".toList)).indentLevel = 0 := by decide
example : (analyzeLine ("    - x".toList)).indentLevel = 1 := by decide
example : (analyzeLine ("- #idea A".toList)).connectorTagName = some ("idea".toList) := by decide
example : (analyzeLine ("- a #x".toList)).connectorTagName = none := by decide

/-- A token with its global character range (`TokenWithRange` of `tag.tsx`).
`stop` is the source's `end` field. -/
structure PosTok where
  tok : Tok
  start : Nat
  stop : Nat
  lineIndex : Nat
deriving DecidableEq, Repr

/-- Assign ranges to one line's tokens starting at global offset `off`
(the body of the `linesWithRanges` map in `tag.tsx`). -/
def rangeLine (off : Nat) (li : Nat) : List Tok → List PosTok
  | [] => []
  | t :: ts => ⟨t, off, off + t.length, li⟩ :: rangeLine (off + t.length) li ts

/-- The running-total pass of `linesWithRanges`: the offset continues across
lines with no separator consumed. -/
def linesWithRangesFrom (off : Nat) (li : Nat) : List (List Tok) → List (List PosTok)
  | [] => []
  | ts :: rest =>
      rangeLine off li ts ::
        linesWithRangesFrom (off + (ts.map Tok.length).sum) (li + 1) rest

/-- `linesWithRanges` of `tag.tsx`. -/
def linesWithRanges (lns : List (List Tok)) : List (List PosTok) :=
  linesWithRangesFrom 0 0 lns

/-- The flattened token stream of a document. -/
def tokenStream (lns : List (List Char)) : List PosTok :=
  (linesWithRanges (lns.map tokenizeLine)).flatten

/-- Offset contiguity of a positioned-token list starting at `off`. -/
def Contig (off : Nat) : List PosTok → Prop
  | [] => True
  | p :: ps => p.start = off ∧ p.stop = off + p.tok.length ∧ Contig p.stop ps

theorem contig_rangeLine_append (li : Nat) :
    ∀ (ts : List Tok) (off : Nat) (b : List PosTok),
      Contig (off + (ts.map Tok.length).sum) b →
      Contig off (rangeLine off li ts ++ b) := by
  intro ts
  induction ts with
  | nil =>
      intro off b hb
      simpa using hb
  | cons t ts ih =>
      intro off b hb
      simp only [rangeLine, List.cons_append]
      refine ⟨rfl, rfl, ?_⟩
      apply ih
      have : off + t.length + (ts.map Tok.length).sum
          = off + ((t :: ts).map Tok.length).sum := by
        simp [List.sum_cons]
        omega
      rw [this]
      exact hb

theorem contig_linesWithRangesFrom :
    ∀ (lns : List (List Tok)) (off li : Nat),
      Contig off ((linesWithRangesFrom off li lns).flatten) := by
  intro lns
  induction lns with
  | nil =>
      intro off li
      simp [linesWithRangesFrom, Contig]
  | cons ts rest ih =>
      intro off li
      simp only [linesWithRangesFrom, List.flatten_cons]
      exact contig_rangeLine_append li ts off _ (ih _ _)

theorem Contig.head_start {off : Nat} {l : List PosTok} (h : Contig off l) :
    ∀ p, l[0]? = some p → p.start = off := by
  cases l with
  | nil => intro p hp; cases hp
  | cons q qs =>
      intro p hp
      rw [List.getElem?_cons_zero] at hp
      cases hp
      exact h.1

theorem Contig.stop_eq {off : Nat} {l : List PosTok} (h : Contig off l) :
    ∀ p ∈ l, p.stop = p.start + p.tok.length := by
  induction l generalizing off with
  | nil => intro p hp; cases hp
  | cons q qs ih =>
      intro p hp
      rcases List.mem_cons.mp hp with rfl | hp
      · rw [h.1, h.2.1]
      · exact ih h.2.2 p hp

theorem Contig.adjacent {off : Nat} {l : List PosTok} (h : Contig off l) :
    ∀ i p q, l[i]? = some p → l[i+1]? = some q → q.start = p.stop := by
  induction l generalizing off with
  | nil => intro i p q hp; cases hp
  | cons r rs ih =>
      intro i p q hp hq
      cases i with
      | zero =>
          rw [List.getElem?_cons_zero] at hp
          cases hp
          rw [List.getElem?_cons_succ] at hq
          exact h.2.2.head_start q hq
      | succ i =>
          rw [List.getElem?_cons_succ] at hp
          rw [List.getElem?_cons_succ] at hq
          exact ih h.2.2 i p q hp hq

/-- C4: in the flattened token stream of a document the first token starts at
offset 0, every token satisfies `stop = start + length`, and each adjacent
pair is contiguous — also across line boundaries, where no virtual line-break
character consumes an offset. -/
theorem tokenStream_contiguous (lns : List (List Char)) :
    (∀ p, (tokenStream lns)[0]? = some p → p.start = 0) ∧
    (∀ p ∈ tokenStream lns, p.stop = p.start + p.tok.length) ∧
    (∀ i p q, (tokenStream lns)[i]? = some p →
      (tokenStream lns)[i+1]? = some q → q.start = p.stop) := by
  have h : Contig 0 (tokenStream lns) := contig_linesWithRangesFrom _ 0 0
  exact ⟨h.head_start, h.stop_eq, h.adjacent⟩

/-- Witness for C4 at the document `["- a", "#b"]`: the tag token opening the
second line starts exactly at the `stop` offset of the last token of the
first line. -/
theorem tokenStream_contiguous_w :
    (⟨Tok.tag ['#', 'b'] ['b'], 3, 5, 1⟩ : PosTok).start =
      (⟨Tok.text ['a'], 2, 3, 0⟩ : PosTok).stop :=
  (tokenStream_contiguous ["- a".toList, "#b".toList]).2.2 2
    ⟨Tok.text ['a'], 2, 3, 0⟩ ⟨Tok.tag ['#', 'b'] ['b'], 3, 5, 1⟩
    (by decide) (by decide)

/-- The forward scan of the connector resolver: starting at index `j`, walk
the remaining indent levels while they stay strictly above `lvl`. -/
def scanChildren (lvl : Nat) (j : Nat) : List Nat → List Nat
  | [] => []
  | l :: ls => if lvl < l then j :: scanChildren lvl (j + 1) ls else []

/-- `childIndices` collection of the `connectors` map in `tag.tsx` (the same
loop appears in `parseDocument` of the checklist module). -/
def childIndices (levels : List Nat) (i : Nat) : List Nat :=
  scanChildren (levels.getD i 0) (i + 1) (levels.drop (i + 1))

/-- `ConnectorMeta` of `tag.tsx` (`colorSignal` is render-time only). -/
structure ConnectorMeta where
  color : String
  childIdxs : List Nat
deriving DecidableEq, Repr

/-- One entry of the `connectors` map in `tag.tsx`. -/
def connectorAt (analyses : List LineAnalysis) (i : Nat) : Option ConnectorMeta :=
  match analyses[i]? with
  | none => none
  | some info =>
    match info.connectorTagName with
    | none => none
    | some name =>
      if childIndices (analyses.map (·.indentLevel)) i = [] then none
      else
        some ⟨(tagPalette name).getD defaultTagColor,
          childIndices (analyses.map (·.indentLevel)) i⟩

/-- The connectors of a raw document in the `tag.tsx` pipeline. -/
def tagConnectors (lns : List (List Char)) (i : Nat) : Option ConnectorMeta :=
  connectorAt (lns.map analyzeLine) i

theorem mem_scanChildren (lvl : Nat) :
    ∀ (ls : List Nat) (s j : Nat),
      j ∈ scanChildren lvl s ls ↔
        (s ≤ j ∧ j < s + ls.length ∧
          ∀ m, s ≤ m → m ≤ j → lvl < ls.getD (m - s) 0) := by
  intro ls
  induction ls with
  | nil =>
      intro s j
      simp [scanChildren]
      omega
  | cons a as ih =>
      intro s j
      simp only [scanChildren]
      by_cases ha : lvl < a
      · rw [if_pos ha]
        simp only [List.mem_cons]
        constructor
        · rintro (rfl | hj)
          · refine ⟨le_rfl, by simp, ?_⟩
            intro m hm1 hm2
            have hms : m = j := le_antisymm hm2 hm1
            subst hms
            simpa using ha
          · obtain ⟨h1, h2, h3⟩ := (ih (s + 1) j).mp hj
            refine ⟨by omega, by simp only [List.length_cons]; omega, ?_⟩
            intro m hm1 hm2
            rcases Nat.eq_or_lt_of_le hm1 with rfl | hlt
            · simpa using ha
            · have hstep := h3 m hlt hm2
              have hms : m - s = (m - (s + 1)) + 1 := by omega
              rw [hms]
              simpa using hstep
        · rintro ⟨h1, h2, h3⟩
          rcases Nat.eq_or_lt_of_le h1 with rfl | hlt
          · exact Or.inl rfl
          · right
            apply (ih (s + 1) j).mpr
            refine ⟨hlt, by simp only [List.length_cons] at h2; omega, ?_⟩
            intro m hm1 hm2
            have hstep := h3 m (by omega) hm2
            have hms : m - s = (m - (s + 1)) + 1 := by omega
            rw [hms] at hstep
            simpa using hstep
      · rw [if_neg ha]
        simp only [List.not_mem_nil, false_iff]
        rintro ⟨h1, h2, h3⟩
        exact ha (by simpa using h3 s le_rfl h1)

theorem mem_childIndices (levels : List Nat) (i j : Nat) :
    j ∈ childIndices levels i ↔
      (i < j ∧ j < levels.length ∧
        ∀ m, i < m → m ≤ j → levels.getD i 0 < levels.getD m 0) := by
  have hget : ∀ m, i + 1 ≤ m →
      (levels.drop (i + 1)).getD (m - (i + 1)) 0 = levels.getD m 0 := by
    intro m hm
    simp only [List.getD_eq_getElem?_getD, List.getElem?_drop]
    congr 2
    omega
  rw [childIndices, mem_scanChildren, List.length_drop]
  constructor
  · rintro ⟨h1, h2, h3⟩
    refine ⟨by omega, by omega, ?_⟩
    intro m hm1 hm2
    have hstep := h3 m (by omega) hm2
    rwa [hget m (by omega)] at hstep
  · rintro ⟨h1, h2, h3⟩
    refine ⟨by omega, by omega, ?_⟩
    intro m hm1 hm2
    rw [hget m (by omega)]
    exact h3 m (by omega) hm2

theorem getD_map_indentLevel (lns : List (List Char)) (m : Nat)
    (hm : m < lns.length) :
    ((lns.map analyzeLine).map (·.indentLevel)).getD m 0 =
      (analyzeLine (lns.getD m [])).indentLevel := by
  simp only [List.getD_eq_getElem?_getD, List.getElem?_map,
    List.getElem?_eq_getElem hm]
  rfl

/-- C6: a connector's `childIndices` is exactly the maximal contiguous run of
immediately-following strictly-more-indented lines, and an empty run yields
no connector at all. -/
theorem connector_children_spec (lns : List (List Char)) (i : Nat) :
    (∀ meta, tagConnectors lns i = some meta → ∀ j,
      j ∈ meta.childIdxs ↔
        (i < j ∧ j < lns.length ∧
          ∀ m, i < m → m ≤ j →
            (analyzeLine (lns.getD i [])).indentLevel <
              (analyzeLine (lns.getD m [])).indentLevel)) ∧
    (childIndices ((lns.map analyzeLine).map (·.indentLevel)) i = [] →
      tagConnectors lns i = none) := by
  constructor
  · intro meta hmeta j
    unfold tagConnectors connectorAt at hmeta
    split at hmeta
    · cases hmeta
    · rename_i info hinfo
      split at hmeta
      · cases hmeta
      · rename_i name hname
        split at hmeta
        · cases hmeta
        · rename_i hcs
          cases hmeta
          have hi : i < lns.length := by
            have := List.getElem?_eq_some_iff.mp hinfo
            simpa using this.1
          simp only [ConnectorMeta.childIdxs]
          rw [mem_childIndices]
          simp only [List.length_map]
          constructor
          · rintro ⟨h1, h2, h3⟩
            refine ⟨h1, h2, ?_⟩
            intro m hm1 hm2
            have hstep := h3 m hm1 hm2
            rwa [getD_map_indentLevel lns i hi,
              getD_map_indentLevel lns m (lt_of_le_of_lt hm2 h2)] at hstep
          · rintro ⟨h1, h2, h3⟩
            refine ⟨h1, h2, ?_⟩
            intro m hm1 hm2
            rw [getD_map_indentLevel lns i hi,
              getD_map_indentLevel lns m (lt_of_le_of_lt hm2 h2)]
            exact h3 m hm1 hm2
  · intro hempty
    unfold tagConnectors connectorAt
    split
    · rfl
    · split
      · rfl
      · rw [if_pos hempty]

/-- Witness for C6: `["- #idea A", "- B"]` (B not indented) yields no
connector on line 0, while the fully nested example yields children `[1, 2]`. -/
theorem connector_children_spec_w :
    tagConnectors ["- #idea A".toList, "- B".toList] 0 = none ∧
    tagConnectors
      ["- #idea A".toList, "    - B".toList, "    - C".toList, "- D".toList] 0 =
      some ⟨"#facc15", [1, 2]⟩ :=
  ⟨(connector_children_spec ["- #idea A".toList, "- B".toList] 0).2 (by decide),
   by decide⟩

/-- `typedWithin` of `tag.tsx`:
`Math.max(0, Math.min(token.length, typed() - token.start))`. -/
def typedWithin (t : PosTok) (typed : Int) : Int :=
  max 0 (min (t.tok.length : Int) (typed - (t.start : Int)))

/-- Modelled from the spec: `clamp(v, lo, hi)` — `v` forced into `[lo, hi]`. -/
def clampSpec (v lo hi : Int) : Int := min hi (max lo v)

/-- C7: the reveal portion is the spec's clamp of `typed - start` into
`[0, length]`; it is monotone in `typed`, zero at or below `start`, and
saturates at `length`. -/
theorem typedWithin_spec (t : PosTok) (typed typed' : Int) :
    typedWithin t typed = clampSpec (typed - (t.start : Int)) 0 (t.tok.length : Int) ∧
    (typed ≤ typed' → typedWithin t typed ≤ typedWithin t typed') ∧
    (typed ≤ (t.start : Int) → typedWithin t typed = 0) ∧
    ((t.start : Int) + (t.tok.length : Int) ≤ typed →
      typedWithin t typed = (t.tok.length : Int)) ∧
    typedWithin t typed ≤ (t.tok.length : Int) := by
  unfold typedWithin clampSpec
  refine ⟨?_, ?_, ?_, ?_, ?_⟩ <;> omega

/-- Witness for C7 at the token `"ab"` starting at offset 3. -/
theorem typedWithin_spec_w :
    typedWithin ⟨Tok.text ['a', 'b'], 3, 5, 0⟩ 2 ≤
      typedWithin ⟨Tok.text ['a', 'b'], 3, 5, 0⟩ 10 ∧
    typedWithin ⟨Tok.text ['a', 'b'], 3, 5, 0⟩ 2 = 0 ∧
    typedWithin ⟨Tok.text ['a', 'b'], 3, 5, 0⟩ 10 = 2 :=
  ⟨(typedWithin_spec ⟨Tok.text ['a', 'b'], 3, 5, 0⟩ 2 10).2.1 (by decide),
   (typedWithin_spec ⟨Tok.text ['a', 'b'], 3, 5, 0⟩ 2 10).2.2.1 (by decide),
   (typedWithin_spec ⟨Tok.text ['a', 'b'], 3, 5, 0⟩ 10 10).2.2.2.1 (by decide)⟩

/-- JavaScript `String.prototype.trim`, used by `splitLineTokens` to detect
pure-whitespace space runs. -/
def jsTrim (l : List Char) : List Char :=
  ((l.dropWhile isWhitespace).reverse.dropWhile isWhitespace).reverse

/-- `splitLineTokens` of `tag.tsx`: leading whitespace space tokens, then an
optional checkbox/bullet marker token, then the content tokens. -/
def splitLineTokens (toks : List PosTok) :
    List PosTok × Option PosTok × List PosTok :=
  let isIndent := fun p : PosTok => p.tok.isSpace && (jsTrim p.tok.raw).isEmpty
  let indentToks := toks.takeWhile isIndent
  let rest := toks.dropWhile isIndent
  match rest with
  | [] => (indentToks, none, [])
  | p :: ps =>
      if p.tok.isCheckbox || p.tok.isBullet then (indentToks, some p, ps)
      else (indentToks, none, p :: ps)

/-- `LineRange` of `tag.tsx`; an empty token line maps to `{0, 0}`. -/
structure LineRange where
  start : Nat
  stop : Nat
deriving DecidableEq, Repr

def lineRangeOf (toks : List PosTok) : LineRange :=
  match toks with
  | [] => ⟨0, 0⟩
  | p :: ps => ⟨p.start, ((p :: ps).getLast (List.cons_ne_nil p ps)).stop⟩

/-- `markerRevealThresholds` of `tag.tsx`: the marker token's end offset, else
the first content token's start offset, else the row's end offset. -/
def thresholdsOf (ranged : List (List PosTok)) : List Nat :=
  ranged.map fun toks =>
    match splitLineTokens toks with
    | (_, some m, _) => m.stop
    | (_, none, contentToks) =>
      match contentToks.head? with
      | some c => c.start
      | none => (lineRangeOf toks).stop

/-- Row constants of the `tag.tsx` scene. -/
def sceneRowHeight : ℚ := 48

def sceneColumnGap : ℚ := 6

def sceneTotalHeight (n : Nat) : ℚ :=
  (n : ℚ) * sceneRowHeight + ((n : ℚ) - 1) * sceneColumnGap

def sceneFirstCenter (n : Nat) : ℚ :=
  -(sceneTotalHeight n) / 2 + sceneRowHeight / 2

/-- `lineCenters` of `tag.tsx`. -/
def sceneLineCenters (n : Nat) : List ℚ :=
  (List.range n).map fun k : Nat =>
    sceneFirstCenter n + (k : ℚ) * (sceneRowHeight + sceneColumnGap)

/-- The `{height, offset}` pair produced by `connectorPlacement`. -/
structure Placement where
  height : ℚ
  offset : ℚ
deriving DecidableEq, Repr

/-- `connectorPlacement` of `tag.tsx`: zero until the owning row's reveal
threshold is reached, then spanning exactly the children whose own thresholds
have been reached. -/
def connectorPlacement (centers : List ℚ) (thresholds : List Nat) :
    Option ConnectorMeta → Nat → Int → Placement
  | none, _, _ => ⟨0, 0⟩
  | some meta, lineIndex, typed =>
    if typed < (thresholds.getD lineIndex 0 : Int) then ⟨0, 0⟩
    else
      match meta.childIdxs.filter
          (fun j => (thresholds.getD j 0 : Int) ≤ typed) with
      | [] => ⟨0, 0⟩
      | a :: as =>
        let lastChild := (a :: as).getLast (List.cons_ne_nil a as)
        let parentCenter := centers.getD lineIndex 0
        let firstChildTop := centers.getD a 0 - sceneRowHeight / 2
        let lastChildBottom := centers.getD lastChild 0 + sceneRowHeight / 2
        let height := max 0 (lastChildBottom - firstChildTop)
        ⟨height, firstChildTop + height / 2 - parentCenter⟩

/-- The per-row reveal thresholds of a raw document in the `tag.tsx`
pipeline. -/
def sceneThresholds (lns : List (List Char)) : List Nat :=
  thresholdsOf (linesWithRanges (lns.map tokenizeLine))

/-- The whole `tag.tsx` reveal pipeline for a raw document. -/
def scenePlacement (lns : List (List Char)) (i : Nat) (typed : Int) : Placement :=
  connectorPlacement (sceneLineCenters lns.length) (sceneThresholds lns)
    (tagConnectors lns i) i typed

/-- C8: the connector span is zero while `typed` is below the owning row's
reveal threshold; once reached, it is computed by the first-child-top /
last-child-bottom edge math restricted to the children whose own thresholds
`typed` has reached, and is zero when that qualifying subset is empty. -/
theorem connector_reveal_gating (lns : List (List Char)) (i : Nat) (typed : Int) :
    (typed < ((sceneThresholds lns).getD i 0 : Int) →
      scenePlacement lns i typed = ⟨0, 0⟩) ∧
    (∀ meta, tagConnectors lns i = some meta →
      (meta.childIdxs.filter
          (fun j => ((sceneThresholds lns).getD j 0 : Int) ≤ typed) = [] →
        scenePlacement lns i typed = ⟨0, 0⟩) ∧
      (∀ a as, ((sceneThresholds lns).getD i 0 : Int) ≤ typed →
        meta.childIdxs.filter
          (fun j => ((sceneThresholds lns).getD j 0 : Int) ≤ typed) = a :: as →
        scenePlacement lns i typed =
          ⟨max 0
              ((sceneLineCenters lns.length).getD
                  ((a :: as).getLast (List.cons_ne_nil a as)) 0 +
                sceneRowHeight / 2 -
                ((sceneLineCenters lns.length).getD a 0 - sceneRowHeight / 2)),
            (sceneLineCenters lns.length).getD a 0 - sceneRowHeight / 2 +
              (max 0
                ((sceneLineCenters lns.length).getD
                    ((a :: as).getLast (List.cons_ne_nil a as)) 0 +
                  sceneRowHeight / 2 -
                  ((sceneLineCenters lns.length).getD a 0 -
                    sceneRowHeight / 2))) / 2 -
              (sceneLineCenters lns.length).getD i 0⟩)) := by
  constructor
  · intro hlt
    unfold scenePlacement
    cases htc : tagConnectors lns i with
    | none => rfl
    | some meta =>
        rw [connectorPlacement, if_pos hlt]
  · intro meta hmeta
    constructor
    · intro hfilter
      unfold scenePlacement
      rw [hmeta, connectorPlacement]
      by_cases hlt : typed < ((sceneThresholds lns).getD i 0 : Int)
      · rw [if_pos hlt]
      · rw [if_neg hlt, hfilter]
    · intro a as hge hfilter
      unfold scenePlacement
      rw [hmeta, connectorPlacement]
      rw [if_neg (not_lt.mpr hge), hfilter]

/-- The five-level example document of the spec's connector scenarios. -/
def exampleDoc : List (List Char) :=
  ["- #idea A".toList, "    - B".toList, "    - C".toList, "- D".toList]

/-- Witness for C8 on the 4-line example: owner threshold reached with no
child reached gives height 0; one child reached spans exactly row 1; both
children reached span rows 1–2. -/
theorem connector_reveal_gating_w :
    scenePlacement exampleDoc 0 1 = ⟨0, 0⟩ ∧
    scenePlacement exampleDoc 0 14 = ⟨48, 54⟩ ∧
    scenePlacement exampleDoc 0 21 = ⟨102, 81⟩ := by
  have hthr : sceneThresholds exampleDoc = [1, 14, 21, 24] := by decide
  have hconn : tagConnectors exampleDoc 0 = some ⟨"#facc15", [1, 2]⟩ := by
    decide
  have hn : exampleDoc.length = 4 := by decide
  refine ⟨((connector_reveal_gating exampleDoc 0 1).2 ⟨"#facc15", [1, 2]⟩
      hconn).1 (by rw [hthr]; decide), ?_, ?_⟩ <;>
    simp [scenePlacement, connectorPlacement, hthr, hconn, hn,
      sceneLineCenters, sceneFirstCenter, sceneTotalHeight, sceneRowHeight,
      sceneColumnGap, List.range_succ, List.filter, List.getD] <;>
    norm_num

/-- `content.indexOf(ch, from)` viewed as a split: `some (before, after)` when
`ch` occurs, with the input equal to `before ++ ch :: after`. -/
def splitAtChar (ch : Char) : List Char → Option (List Char × List Char)
  | [] => none
  | c :: cs =>
      if c = ch then some ([], cs)
      else
        match splitAtChar ch cs with
        | none => none
        | some (a, b) => some (c :: a, b)

/-- The segment union of the checklist module's `parseSegments`. -/
inductive Seg where
  | text (content : List Char)
  | tagSeg (raw tagName : List Char) (recognized : Bool) (color : Option String)
  | link (aliasText url : List Char)
deriving DecidableEq, Repr

def Seg.isTagSeg : Seg → Bool
  | .tagSeg _ _ _ _ => true
  | _ => false

/-- The scanning loop of `parseSegments`; each iteration consumes at least one
character, so `fuel = content.length` suffices. -/
def parseSegmentsGo (fuel : Nat) (content : List Char) : List Seg :=
  match fuel with
  | 0 => []
  | fuel + 1 =>
    match content with
    | [] => []
    | c :: cs =>
      if c = '#' then
        let body := cs.takeWhile (fun d => ¬ isWhitespace d)
        Seg.tagSeg ('#' :: body) body
            (!body.isEmpty && (tagPalette body).isSome) (tagPalette body) ::
          parseSegmentsGo fuel (cs.dropWhile (fun d => ¬ isWhitespace d))
      else if c = '[' then
        match splitAtChar ']' cs with
        | some (aliasText, after) =>
          match after with
          | '(' :: rest2 =>
            match splitAtChar ')' rest2 with
            | some (url, rest3) => Seg.link aliasText url :: parseSegmentsGo fuel rest3
            | none =>
                Seg.text (c :: cs.takeWhile (fun d => d ≠ '#' ∧ d ≠ '[')) ::
                  parseSegmentsGo fuel (cs.dropWhile (fun d => d ≠ '#' ∧ d ≠ '['))
          | _ =>
              Seg.text (c :: cs.takeWhile (fun d => d ≠ '#' ∧ d ≠ '[')) ::
                parseSegmentsGo fuel (cs.dropWhile (fun d => d ≠ '#' ∧ d ≠ '['))
        | none =>
            Seg.text (c :: cs.takeWhile (fun d => d ≠ '#' ∧ d ≠ '[')) ::
              parseSegmentsGo fuel (cs.dropWhile (fun d => d ≠ '#' ∧ d ≠ '['))
      else
        Seg.text (c :: cs.takeWhile (fun d => d ≠ '#' ∧ d ≠ '[')) ::
          parseSegmentsGo fuel (cs.dropWhile (fun d => d ≠ '#' ∧ d ≠ '['))

/-- `parseSegments` of the checklist module; empty content yields a single
empty text segment. -/
def parseSegments (content : List Char) : List Seg :=
  match parseSegmentsGo content.length content with
  | [] => [Seg.text []]
  | segs => segs

example :
    parseSegments (" a #x".toList) =
      [Seg.text (" a ".toList),
       Seg.tagSeg ("#x".toList) ['x'] false none] := by decide

example :
    parseSegments ("#idea A".toList) =
      [Seg.tagSeg ("#idea".toList) ("idea".toList) true (some "#facc15"),
       Seg.text (" A".toList)] := by decide

/-- `ParsedLine` of the checklist module (layout-facing fields only; the
`connector` field is assigned by `parseDocument` and modelled by
`docConnectorAt`). -/
structure PLine where
  indentSpaces : Nat
  indentLevel : Nat
  marker : Option Marker
  checkboxState : Option CheckboxState
  segments : List Seg
  hasTag : Bool
  tagRecognized : Bool
  tagColor : String
deriving DecidableEq, Repr

/-- `parseLine` of the checklist module. -/
def part2ParseLine (l : List Char) : PLine :=
  let indentSpaces := (l.takeWhile (· = ' ')).length
  let remainder0 := l.drop indentSpaces
  let parsed :=
    match matchCheckboxStrict remainder0 with
    | some (st, rest) => (some Marker.checkbox, some st, rest)
    | none =>
      if remainder0.head? = some '-' then
        (some Marker.bullet, none, remainder0.drop 1)
      else (none, none, remainder0)
  let segments := parseSegments parsed.2.2
  let firstTag := segments.find? Seg.isTagSeg
  let tagRecognized :=
    match firstTag with
    | some (.tagSeg _ _ r _) => r
    | _ => false
  let firstTagColor :=
    match firstTag with
    | some (.tagSeg _ _ _ col) => col
    | _ => none
  { indentSpaces := indentSpaces
    indentLevel := indentSpaces / 4
    marker := parsed.1
    checkboxState := parsed.2.1
    segments := segments
    hasTag := firstTag.isSome
    tagRecognized := tagRecognized
    tagColor :=
      if tagRecognized then firstTagColor.getD defaultTagColor
      else defaultTagColor }

/-- `ChecklistLayoutConfig` of the checklist module. -/
structure LayoutCfg where
  rowHeight : ℚ
  columnGap : ℚ
  indentSpaceWidth : ℚ
deriving DecidableEq, Repr

/-- `defaultLayoutConfig`. -/
def defaultLayoutCfg : LayoutCfg := ⟨48, 6, 16⟩

/-- `parseDocument`'s total stack height; `Math.max(0, lineCount - 1)` is
Nat truncated subtraction. -/
def docTotalHeight (cfg : LayoutCfg) (n : Nat) : ℚ :=
  (n : ℚ) * cfg.rowHeight + ((n - 1 : Nat) : ℚ) * cfg.columnGap

def docFirstCenter (cfg : LayoutCfg) (n : Nat) : ℚ :=
  -(docTotalHeight cfg n) / 2 + cfg.rowHeight / 2

/-- `lineCenters` of `parseDocument`. -/
def docLineCenters (cfg : LayoutCfg) (n : Nat) : List ℚ :=
  (List.range n).map fun k : Nat =>
    docFirstCenter cfg n + (k : ℚ) * (cfg.rowHeight + cfg.columnGap)

/-- `ConnectorInfo` of the checklist module. -/
structure ConnInfo where
  color : String
  height : ℚ
  offset : ℚ
deriving DecidableEq, Repr

/-- The connector assignment loop of `parseDocument` for line `i`. -/
def docConnectorAt (lns : List (List Char)) (cfg : LayoutCfg) (i : Nat) :
    Option ConnInfo :=
  match ((lns.map part2ParseLine)[i]?) with
  | none => none
  | some line =>
    if line.hasTag then
      match childIndices ((lns.map part2ParseLine).map (·.indentLevel)) i with
      | [] => none
      | a :: as =>
        let lastChild := (a :: as).getLast (List.cons_ne_nil a as)
        let parentCenter := (docLineCenters cfg lns.length).getD i 0
        let firstChildTop :=
          (docLineCenters cfg lns.length).getD a 0 - cfg.rowHeight / 2
        let lastChildBottom :=
          (docLineCenters cfg lns.length).getD lastChild 0 + cfg.rowHeight / 2
        let height := max 0 (lastChildBottom - firstChildTop)
        some ⟨(if line.tagRecognized then line.tagColor else defaultTagColor),
          height, firstChildTop + height / 2 - parentCenter⟩
    else none

/-- C9: row `k`'s center follows the `firstCenter + k*(H+G)` law with the
stack of total height `n*H + (n-1)*G` centered around zero, and every
produced connector's height and offset follow the first-child-top /
last-child-bottom edge math. -/
theorem doc_geometry_spec (cfg : LayoutCfg) (lns : List (List Char)) (k i : Nat) :
    (1 ≤ lns.length → k < lns.length →
      (docLineCenters cfg lns.length).getD k 0 =
        -((lns.length : ℚ) * cfg.rowHeight +
            ((lns.length : ℚ) - 1) * cfg.columnGap) / 2 +
          cfg.rowHeight / 2 + (k : ℚ) * (cfg.rowHeight + cfg.columnGap)) ∧
    (∀ info, docConnectorAt lns cfg i = some info →
      ∀ a as,
        childIndices ((lns.map part2ParseLine).map (·.indentLevel)) i = a :: as →
        info.height =
          max 0 ((docLineCenters cfg lns.length).getD
              ((a :: as).getLast (List.cons_ne_nil a as)) 0 + cfg.rowHeight / 2 -
            ((docLineCenters cfg lns.length).getD a 0 - cfg.rowHeight / 2)) ∧
        info.offset =
          (docLineCenters cfg lns.length).getD a 0 - cfg.rowHeight / 2 +
            info.height / 2 - (docLineCenters cfg lns.length).getD i 0) := by
  constructor
  · intro hn hk
    unfold docLineCenters
    rw [List.getD_eq_getElem?_getD, List.getElem?_map, List.getElem?_range hk]
    simp only [Option.map_some', Option.getD_some, docFirstCenter, docTotalHeight]
    rw [Nat.cast_sub hn]
    norm_num
  · intro info hinfo a as hcs
    unfold docConnectorAt at hinfo
    split at hinfo
    · cases hinfo
    · rename_i line hline
      split at hinfo
      · rw [hcs] at hinfo
        cases hinfo
        exact ⟨rfl, rfl⟩
      · cases hinfo

/-- Witness for C9: the center of row 2 in the 4-line example document under
the default layout follows the stated law. -/
theorem doc_geometry_spec_w :
    (docLineCenters defaultLayoutCfg exampleDoc.length).getD 2 0 =
      -((exampleDoc.length : ℚ) * defaultLayoutCfg.rowHeight +
          ((exampleDoc.length : ℚ) - 1) * defaultLayoutCfg.columnGap) / 2 +
        defaultLayoutCfg.rowHeight / 2 +
        (2 : ℚ) * (defaultLayoutCfg.rowHeight + defaultLayoutCfg.columnGap) :=
  (doc_geometry_spec defaultLayoutCfg exampleDoc 2 0).1 (by decide) (by decide)

/-- C2 (amended): in the `tag.tsx` pipeline, a line whose stripped content
does not begin with `#` — in particular one whose first tag appears mid-line —
gets no `connectorTagName` and therefore no connector. -/
theorem leading_tag_connector_only (lns : List (List Char)) (i : Nat)
    (hhash : (lineContentAfterMarker (lns.getD i [])).head? ≠ some '#') :
    (analyzeLine (lns.getD i [])).connectorTagName = none ∧
    tagConnectors lns i = none := by
  have hname : ∀ l : List Char, (lineContentAfterMarker l).head? ≠ some '#' →
      (analyzeLine l).connectorTagName = none := by
    intro l hl
    show (match lineContentAfterMarker l with
      | '#' :: rest =>
          if rest.takeWhile (fun d => ¬ isWhitespace d) = [] then none
          else some (rest.takeWhile (fun d => ¬ isWhitespace d))
      | _ => none) = none
    split
    · rename_i rest heq
      exact absurd (by rw [heq]; rfl) hl
    · rfl
  refine ⟨hname _ hhash, ?_⟩
  unfold tagConnectors connectorAt
  split
  · rfl
  · rename_i info hinfo
    obtain ⟨hi, hval⟩ := List.getElem?_eq_some_iff.mp hinfo
    have hi' : i < lns.length := by simpa using hi
    have hinfo' : info = analyzeLine (lns.getD i []) := by
      rw [List.getElem_map] at hval
      rw [← hval, List.getD_eq_getElem?_getD, List.getElem?_eq_getElem hi']
      rfl
    rw [hinfo', hname _ hhash]

/-- Witness for C2 at `["- a #x", "    - b"]`: line 0's first tag is mid-line,
so the `tag.tsx` pipeline assigns neither a connector tag nor a connector. -/
theorem leading_tag_connector_only_w :
    (analyzeLine ("- a #x".toList)).connectorTagName = none ∧
    tagConnectors ["- a #x".toList, "    - b".toList] 0 = none :=
  leading_tag_connector_only ["- a #x".toList, "    - b".toList] 0 (by decide)

/-- Counterexample for C2: `parseDocument` of the checklist module keys
connectors off `hasTag`, which is satisfied by a mid-line tag, so the line
`"- a #x"` (first tag after text content) does get a connector once a
more-indented line follows. -/
theorem leading_tag_connector_only_cex :
    (part2ParseLine ("- a #x".toList)).segments.head? =
      some (Seg.text (" a ".toList)) ∧
    (part2ParseLine ("- a #x".toList)).hasTag = true ∧
    (docConnectorAt ["- a #x".toList, "    - b".toList] defaultLayoutCfg
        0).isSome = true := by
  refine ⟨by decide, by decide, by decide⟩

/-- `showPill` of `buildDocumentNodes` in the checklist module:
`segment.recognized && segment.tagName.length > 0`. -/
def segShowPill : Seg → Bool
  | .tagSeg _ tagName recognized _ => recognized && decide (0 < tagName.length)
  | _ => false

/-- `visibleLength` of the tag case of `renderTokenNode`:
`Math.min(Math.floor(portion()), textValue().length)`. -/
def visibleLength (portion : Int) (textVal : List Char) : Int :=
  min portion (textVal.length : Int)

/-- `hasCharacters` of `renderTokenNode`. -/
def hasCharacters (portion : Int) (textVal : List Char) : Bool :=
  decide (0 < visibleLength portion textVal)

/-- `hasTagBody` of `renderTokenNode`. -/
def hasTagBody (name : List Char) : Bool := decide (0 < name.length)

/-- `backgroundColor` of `renderTokenNode`:
`tagPalette[tagNameValue()] ?? defaultTagColor`. -/
def tagBackgroundColor (name : List Char) : String :=
  (tagPalette name).getD defaultTagColor

/-- The tag `Rect`'s `radius` reactive value. -/
def tagRectRadius (name : List Char) : ℚ :=
  if hasTagBody name then 999 else 0

/-- The tag `Rect`'s `fill` reactive value. -/
def tagRectFill (name : List Char) : String :=
  if hasTagBody name then tagBackgroundColor name else "#00000000"

/-- The tag `Rect`'s `opacity` reactive value. -/
def tagRectOpacity (portion : Int) (textVal : List Char) : ℚ :=
  if hasCharacters portion textVal then 1 else 0

/-- C3: a tag token renders with visible pill styling exactly when it has at
least one revealed character and a non-empty tag name, and the pill fill is
the palette entry for the current name, falling back to the neutral gray for
names outside the palette. -/
theorem tag_pill_spec (t : PosTok) (typed : Int) (raw name : List Char)
    (htok : t.tok = Tok.tag raw name) :
    ((0 < tagRectOpacity (typedWithin t typed) raw ∧
        tagRectRadius name = 999 ∧
        tagRectFill name = tagBackgroundColor name) ↔
      (1 ≤ visibleLength (typedWithin t typed) raw ∧ name ≠ [])) ∧
    (tagPalette name = none → tagBackgroundColor name = defaultTagColor) ∧
    (∀ col, tagPalette name = some col → tagBackgroundColor name = col) := by
  refine ⟨?_, ?_, ?_⟩
  · constructor
    · rintro ⟨hop, hrad, _⟩
      constructor
      · by_cases hc : hasCharacters (typedWithin t typed) raw
        · have := of_decide_eq_true hc
          omega
        · rw [tagRectOpacity, if_neg hc] at hop
          norm_num at hop
      · by_cases hb : hasTagBody name
        · have h0 := of_decide_eq_true hb
          intro hne
          rw [hne] at h0
          simp at h0
        · rw [tagRectRadius, if_neg hb] at hrad
          norm_num at hrad
    · rintro ⟨hvis, hname⟩
      have hc : hasCharacters (typedWithin t typed) raw = true :=
        decide_eq_true (by omega)
      have hb : hasTagBody name = true :=
        decide_eq_true (by cases name with
          | nil => exact absurd rfl hname
          | cons c cs => simp)
      refine ⟨?_, ?_, ?_⟩
      · rw [tagRectOpacity, if_pos hc]
        norm_num
      · rw [tagRectRadius, if_pos hb]
      · rw [tagRectFill, if_pos hb]
  · intro hp
    rw [tagBackgroundColor, hp]
    rfl
  · intro col hp
    rw [tagBackgroundColor, hp]
    rfl

/-- Witness for C3: the `#idea` tag with one revealed character shows a pill
with the palette fill, while the unrecognized names `xyz` and `Idea`
(case-sensitive miss) fall back to the neutral gray. -/
theorem tag_pill_spec_w :
    (0 < tagRectOpacity
        (typedWithin ⟨Tok.tag ("#idea".toList) ("idea".toList), 2, 7, 0⟩ 3)
        ("#idea".toList) ∧
      tagRectRadius ("idea".toList) = 999 ∧
      tagRectFill ("idea".toList) = tagBackgroundColor ("idea".toList)) ∧
    tagBackgroundColor ("xyz".toList) = defaultTagColor ∧
    tagBackgroundColor ("Idea".toList) = defaultTagColor :=
  ⟨(tag_pill_spec ⟨Tok.tag ("#idea".toList) ("idea".toList), 2, 7, 0⟩ 3
      ("#idea".toList) ("idea".toList) rfl).1.mpr ⟨by decide, by decide⟩,
   (tag_pill_spec ⟨Tok.tag ("#xyz".toList) ("xyz".toList), 0, 4, 0⟩ 0
      ("#xyz".toList) ("xyz".toList) rfl).2.1 (by decide),
   (tag_pill_spec ⟨Tok.tag ("#Idea".toList) ("Idea".toList), 0, 5, 0⟩ 0
      ("#Idea".toList) ("Idea".toList) rfl).2.1 (by decide)⟩

theorem tokenizeFrom_checkbox_step (fuel : Nat) (prev : Option Tok)
    {l raw : List Char} {st : CheckboxState} {rest : List Char}
    (h : matchCheckbox l = some (raw, st, rest)) :
    tokenizeFrom (fuel + 1) prev l =
      Tok.checkbox raw st :: tokenizeFrom fuel (some (Tok.checkbox raw st)) rest := by
  simp [tokenizeFrom, h]

/-- C1 (amended): the tokenizer's checkbox pattern only matches the recognized
state characters, producing a checkbox token whose state is the mapped one;
a bracket with an unrecognized state character does not match, so the line
falls back to a bullet token and no checkbox token is produced for it. -/
theorem checkbox_token_recognition (c : Char) (rest : List Char) :
    (c ∈ checkboxStateChars →
      (tokenizeLine ('-' :: ' ' :: '[' :: c :: ']' :: rest)).head? =
        some (Tok.checkbox ['-', ' ', '[', c, ']']
          ((checkboxCharToState c).getD .unchecked))) ∧
    (c ∉ checkboxStateChars →
      (tokenizeLine ('-' :: ' ' :: '[' :: c :: ']' :: rest)).head? =
        some (Tok.bullet ['-'])) := by
  constructor
  · intro hc
    have hm : matchCheckbox ('-' :: ' ' :: '[' :: c :: ']' :: rest) =
        some (['-', ' ', '[', c, ']'],
          (checkboxCharToState c).getD .unchecked, rest) := by
      show (if isWhitespace ' ' = true ∧ c ∈ checkboxStateChars then
          some (['-', ' ', '[', c, ']'],
            (checkboxCharToState c).getD CheckboxState.unchecked, rest)
        else none) =
        some (['-', ' ', '[', c, ']'],
          (checkboxCharToState c).getD CheckboxState.unchecked, rest)
      rw [if_pos ⟨by decide, hc⟩]
    show (tokenizeFrom (rest.length + 4 + 1) none
      ('-' :: ' ' :: '[' :: c :: ']' :: rest)).head? = _
    rw [tokenizeFrom_checkbox_step _ _ hm]
    rfl
  · intro hc
    have hm : matchCheckbox ('-' :: ' ' :: '[' :: c :: ']' :: rest) = none := by
      show (if isWhitespace ' ' = true ∧ c ∈ checkboxStateChars then
          some (['-', ' ', '[', c, ']'],
            (checkboxCharToState c).getD CheckboxState.unchecked, rest)
        else none) = none
      rw [if_neg]
      intro hand
      exact hc hand.2
    show (tokenizeFrom (rest.length + 4 + 1) none
      ('-' :: ' ' :: '[' :: c :: ']' :: rest)).head? = _
    rw [tokenizeFrom]
    rw [hm]
    simp

/-- Witness for C1: `"- [x] task"` opens with a checkbox token in state
`done`; `"- [q] task"` opens with a bullet token instead. -/
theorem checkbox_token_recognition_w :
    (tokenizeLine ("- [x] task".toList)).head? =
      some (Tok.checkbox ("- [x]".toList) CheckboxState.done) ∧
    (tokenizeLine ("- [q] task".toList)).head? = some (Tok.bullet ['-']) :=
  ⟨(checkbox_token_recognition 'x' (" task".toList)).1 (by decide),
   (checkbox_token_recognition 'q' (" task".toList)).2 (by decide)⟩

/-- Counterexample for C1: contrary to the claim, `tokenize("- [q] task")`
produces no checkbox token at all (the unrecognized bracket degrades to
bullet/text tokens), rather than a checkbox token with state `unchecked`. -/
theorem checkbox_token_recognition_cex :
    ((tokenizeLine ("- [q] task".toList)).all fun t => !t.isCheckbox) = true ∧
    tokenizeLine ("- [q] task".toList) =
      [Tok.bullet ['-'], Tok.space [' '] 20, Tok.text ("[q]".toList),
       Tok.space [' '] 16, Tok.text ("task".toList)] := by
  refine ⟨by decide, by decide⟩

/-- Whether a dash immediately followed by a space occurs anywhere in the
line — the only configuration in which the tokenizer's bullet branch fires. -/
def hasDashSpace : List Char → Bool
  | [] => false
  | [_] => false
  | c :: d :: rest => (c == '-' && d == ' ') || hasDashSpace (d :: rest)

theorem hasDashSpace_of_suffix :
    ∀ {l₁ l₂ : List Char}, l₂ <:+ l₁ → hasDashSpace l₁ = false →
      hasDashSpace l₂ = false := by
  intro l₁
  induction l₁ with
  | nil =>
      intro l₂ h hf
      rw [List.suffix_nil.mp h]
      rfl
  | cons c cs ih =>
      intro l₂ h hf
      obtain ⟨pre, hpre⟩ := h
      cases pre with
      | nil =>
          simp only [List.nil_append] at hpre
          rw [hpre]
          exact hf
      | cons p ps =>
          have h2 : l₂ <:+ cs := by
            refine ⟨ps, ?_⟩
            simpa using congrArg List.tail hpre
          apply ih h2
          cases cs with
          | nil => rfl
          | cons d rest =>
              have hstep : hasDashSpace (c :: d :: rest) =
                  ((c == '-' && d == ' ') || hasDashSpace (d :: rest)) := rfl
              rw [hstep] at hf
              exact (Bool.or_eq_false_iff.mp hf).2

theorem tokenizeFrom_no_bullet :
    ∀ (fuel : Nat) (prev : Option Tok) (l : List Char), l.length ≤ fuel →
      hasDashSpace l = false →
      ((tokenizeFrom fuel prev l).all fun t => !t.isBullet) = true := by
  intro fuel
  induction fuel with
  | zero =>
      intro prev l hl hd
      have hnil : l = [] := List.length_eq_zero.mp (Nat.le_zero.mp hl)
      subst hnil
      rfl
  | succ fuel ih =>
      intro prev l hl hd
      simp only [tokenizeFrom]
      cases hm : matchCheckbox l with
      | some res =>
          obtain ⟨raw, st, rest⟩ := res
          obtain ⟨hsplit, hlen⟩ := matchCheckbox_some hm
          have hrest : rest.length ≤ fuel := by
            have := congrArg List.length hsplit
            simp [hlen] at this
            omega
          have hsuf : hasDashSpace rest = false :=
            hasDashSpace_of_suffix ⟨raw, hsplit.symm⟩ hd
          simp only [List.all_cons, Bool.and_eq_true]
          exact ⟨rfl, ih _ rest hrest hsuf⟩
      | none =>
          cases l with
          | nil => rfl
          | cons c cs =>
              have hcs : cs.length ≤ fuel := by
                simp only [List.length_cons] at hl
                omega
              have hsufcs : hasDashSpace cs = false :=
                hasDashSpace_of_suffix (List.suffix_cons c cs) hd
              have hdrop : ∀ p : Char → Bool,
                  hasDashSpace (cs.dropWhile p) = false := fun p =>
                hasDashSpace_of_suffix
                  ((List.dropWhile_suffix p).trans (List.suffix_cons c cs)) hd
              have hdroplen : ∀ p : Char → Bool,
                  (cs.dropWhile p).length ≤ fuel := fun p =>
                le_trans (List.dropWhile_sublist p).length_le hcs
              by_cases hsp : c = ' '
              · simp only [if_pos hsp, List.all_cons, Bool.and_eq_true]
                exact ⟨rfl, ih _ _ (hdroplen _) (hdrop _)⟩
              · simp only [if_neg hsp]
                by_cases hb : c = '-' ∧ cs.head? = some ' '
                · exfalso
                  obtain ⟨hc, hhead⟩ := hb
                  cases cs with
                  | nil => cases hhead
                  | cons d rest =>
                      have hd' : d = ' ' := by
                        simpa using hhead
                      subst hc
                      subst hd'
                      have hstep : hasDashSpace ('-' :: ' ' :: rest) = true := by
                        have : hasDashSpace ('-' :: ' ' :: rest) =
                            (('-' == '-' && ' ' == ' ') ||
                              hasDashSpace (' ' :: rest)) := rfl
                        rw [this]
                        simp
                      rw [hstep] at hd
                      cases hd
                · simp only [if_neg hb]
                  by_cases ht : c = '#'
                  · simp only [if_pos ht, List.all_cons, Bool.and_eq_true]
                    exact ⟨rfl, ih _ _ (hdroplen _) (hdrop _)⟩
                  · simp only [if_neg ht, List.all_cons, Bool.and_eq_true]
                    exact ⟨rfl, ih _ _ (hdroplen _) (hdrop _)⟩

/-- C10 (amended): a post-indentation remainder that starts with a dash but
does not match the analyzer's checkbox pattern is classified as a bullet
marker, while the tokenizer emits a bullet token only where a dash is
immediately followed by a space — so a line containing no dash-space pair
anywhere (such as `"-foo"`) tokenizes with no bullet token at all. -/
theorem dash_marker_vs_bullet_token (l : List Char) :
    ((remainderAfterIndent l).head? = some '-' →
      matchCheckboxStrict (remainderAfterIndent l) = none →
      (analyzeLine l).marker = some Marker.bullet) ∧
    (hasDashSpace l = false →
      ((tokenizeLine l).all fun t => !t.isBullet) = true) := by
  constructor
  · intro hhead hmatch
    show (match matchCheckboxStrict (remainderAfterIndent l) with
      | some _ => some Marker.checkbox
      | none =>
          if (remainderAfterIndent l).head? = some '-' then some Marker.bullet
          else none) = some Marker.bullet
    rw [hmatch]
    show (if (remainderAfterIndent l).head? = some '-' then some Marker.bullet
      else none) = some Marker.bullet
    rw [if_pos hhead]
  · intro hd
    exact tokenizeFrom_no_bullet l.length none l le_rfl hd

/-- Witness for C10 at `"-foo"`: marker `bullet` in the analysis, yet no
bullet token in the token stream. -/
theorem dash_marker_vs_bullet_token_w :
    (analyzeLine ("-foo".toList)).marker = some Marker.bullet ∧
    ((tokenizeLine ("-foo".toList)).all fun t => !t.isBullet) = true :=
  ⟨(dash_marker_vs_bullet_token ("-foo".toList)).1 (by decide) (by decide),
   (dash_marker_vs_bullet_token ("-foo".toList)).2 (by decide)⟩

/-- Counterexample for C10: `"-foo - bar"` is in the claim's domain (leading
dash, no checkbox match, dash not followed by a space) and has marker
`bullet`, yet its token stream does contain a bullet token (from the
mid-line `"- "`), contradicting the claim's "contains no bullet token". -/
theorem dash_marker_vs_bullet_token_cex :
    (remainderAfterIndent ("-foo - bar".toList)).head? = some '-' ∧
    matchCheckboxStrict (remainderAfterIndent ("-foo - bar".toList)) = none ∧
    (analyzeLine ("-foo - bar".toList)).marker = some Marker.bullet ∧
    ((tokenizeLine ("-foo - bar".toList)).any fun t => t.isBullet) = true := by
  refine ⟨by decide, by decide, by decide, by decide⟩
